import Mathlib

/-!
Verification of the `wish` command interpreter (src/wish.c) against its
natural-language specification.  The C program is shallowly embedded:
strings are `List Char`, the mutable global path registry is threaded as an
explicit `List (List Char)`, OS capabilities (`access`, `chdir`) are
parameters (`fsExec`, `chdirOk`), and observable side effects (the fixed
error message, forks, the child's `open` of a redirect target, `chdir`)
are collected in an explicit effect trace.  Forks and waits are modelled
as always succeeding; `waitpid` interrupted by `EINTR` is retried by the
code until completion, so the wait step is total here.
-/

namespace Wish

/-- Space or tab, the whitespace trimmed by `split_tokens` (wish.c:64-66). -/
def isWS (c : Char) : Bool := c == ' ' || c == '\t'

/-- Remove the maximal trailing run of characters satisfying `p`
(the backwards `end--` loop of wish.c:65-67). -/
def dropTrailing (p : Char → Bool) : List Char → List Char
  | [] => []
  | c :: rest =>
    match dropTrailing p rest with
    | [] => if p c then [] else [c]
    | r :: rs => c :: r :: rs

/-- Trim leading then trailing space/tab from a token (wish.c:63-67). -/
def trimWS (l : List Char) : List Char :=
  dropTrailing isWS (l.dropWhile isWS)

/-- The raw pieces produced by repeated `strsep` (wish.c:59): split at every
delimiter character, keeping empty pieces between consecutive delimiters. -/
def splitRaw (delims : List Char) : List Char → List (List Char)
  | [] => [[]]
  | c :: rest =>
    if c ∈ delims then [] :: splitRaw delims rest
    else
      match splitRaw delims rest with
      | [] => [[c]]
      | p :: ps => (c :: p) :: ps

/-- `split_tokens` (wish.c:53-89): strsep into pieces, skip empty pieces,
trim space/tab on both ends, skip pieces that became empty. -/
def split_tokens (s : List Char) (delims : List Char) : List (List Char) :=
  (splitRaw delims s).foldr
    (fun tok acc =>
      if tok = [] then acc
      else if trimWS tok = [] then acc else trimWS tok :: acc)
    []

/-- The whitespace delimiter set `" \t"` used for intra-segment splits. -/
def wsDelims : List Char := [' ', '\t']

/-! ## Observable effects

Each observable action of the program is one trace event.  `errMsg` is the
single fixed error message written by `err()` (wish.c:17-19); `spawned`
records a successful `fork`+`execv` with the program path, the verbatim
argv, and the redirect target; `openReq` records the child's
`open(redir_path, flags, mode)` call (wish.c:289); `chdirEff` records a
successful `chdir` (wish.c:197). -/

/-- Linux numeric value of `O_WRONLY`. -/
def O_WRONLY : Nat := 1
/-- Linux numeric value of `O_CREAT`. -/
def O_CREAT : Nat := 64
/-- Linux numeric value of `O_TRUNC`. -/
def O_TRUNC : Nat := 512
/-- Linux numeric value of `O_APPEND` (not used by the code; needed to state
that the code truncates rather than appends). -/
def O_APPEND : Nat := 1024

/-- The flag word of the redirect `open` call: `O_CREAT|O_WRONLY|O_TRUNC`
(wish.c:289). -/
def redirOpenFlags : Nat := O_CREAT ||| O_WRONLY ||| O_TRUNC

/-- The mode argument of the redirect `open` call: the literal `0666`
(wish.c:289). -/
def redirOpenMode : Nat := 0o666

/-- Mode asserted by the spec sentence "read/write owner permission and
read-only group/other permission", i.e. `rw-r--r--` = `0644`.  Modelled from
the spec's words, for comparison with `redirOpenMode` from the source. -/
def specClaimedRedirMode : Nat := 0o644

/-- One observable trace event. -/
inductive Eff where
  | errMsg : Eff
  | spawned (prog : List Char) (argv : List (List Char)) (redir : Option (List Char)) : Eff
  | openReq (target : List Char) (flags mode : Nat) : Eff
  | chdirEff (dir : List Char) : Eff
deriving DecidableEq

/-- A trace contains no process creation and no file-open request: what a
builtin dispatch is allowed to emit. -/
def effsSafe (es : List Eff) : Prop :=
  ∀ e ∈ es, (∀ p f m, e ≠ Eff.openReq p f m) ∧ (∀ pr av rd, e ≠ Eff.spawned pr av rd)

/-! ## Executable resolution (wish.c:109-120) -/

/-- `resolve_exec` (wish.c:109-120): walk the path registry in order; for
each directory build `dir ++ "/" ++ cmd` and return the first candidate for
which `access(p, X_OK) == 0` (here: `fs p = true`); `none` when the registry
is empty or no candidate is executable. -/
def resolve_exec (fs : List Char → Bool) : List (List Char) → List Char → Option (List Char)
  | [], _ => none
  | d :: rest, cmd =>
    let p := d ++ '/' :: cmd
    if fs p then some p else resolve_exec fs rest cmd

/-! ## Segment parsing (wish.c:136-172) -/

/-- Result of `parse_cmd_with_redir`: `perr` is the NULL-return after
`err()` (syntax error), `pempty` is the silent NULL-return for an empty
argv (wish.c:166-170), `pok` carries argv and the optional redirect
target. -/
inductive ParseOut where
  | perr : ParseOut
  | pempty : ParseOut
  | pok (argv : List (List Char)) (redir : Option (List Char)) : ParseOut
deriving DecidableEq

/-- `parse_cmd_with_redir` (wish.c:136-172): more than one `>` is an error;
with exactly one `>`, the text after it must tokenize (on space/tab) to
exactly one token, the redirect target, and the text before it is tokenized
into argv; with no `>` the whole segment is tokenized into argv.  An empty
argv is the silent-skip result. -/
def parse_cmd_with_redir (seg : List Char) : ParseOut :=
  let gt := seg.countP (fun c => c == '>')
  if 1 < gt then .perr
  else if gt = 1 then
    let left := seg.takeWhile (fun c => c != '>')
    let right := (seg.dropWhile (fun c => c != '>')).tail
    match split_tokens right wsDelims with
    | [target] =>
      match split_tokens left wsDelims with
      | [] => .pempty
      | a :: as => .pok (a :: as) (some target)
    | _ => .perr
  else
    match split_tokens seg wsDelims with
    | [] => .pempty
    | a :: as => .pok (a :: as) none

/-- The text strictly before the first `>` of a segment (left half of the
`strchr` split, wish.c:149-150). -/
def beforeGT (seg : List Char) : List Char := seg.takeWhile (fun c => c != '>')

/-- The text strictly after the first `>` of a segment (right half of the
`strchr` split, wish.c:149-151). -/
def afterGT (seg : List Char) : List Char := (seg.dropWhile (fun c => c != '>')).tail

/-! ## Builtin dispatch (wish.c:184-220) -/

/-- The builtin directive name `exit`. -/
def exitName : List Char := ['e', 'x', 'i', 't']
/-- The builtin directive name `cd`. -/
def cdName : List Char := ['c', 'd']
/-- The builtin directive name `path`. -/
def pathName : List Char := ['p', 'a', 't', 'h']

/-- Result of `handle_builtin`: `notBuiltin` is the 0-return (caller falls
through to external execution); `handled` is the 1-return with the possibly
replaced path registry and emitted effects; `terminate` is the in-process
`exit(status)` of the `exit` builtin. -/
inductive BuiltinOut where
  | notBuiltin : BuiltinOut
  | handled (newPath : List (List Char)) (effs : List Eff) : BuiltinOut
  | terminate (status : Nat) (effs : List Eff) : BuiltinOut
deriving DecidableEq

/-- `handle_builtin` (wish.c:184-220).  `exit` with no extra argument frees
the registry and exits 0; with any extra argument it reports the error and
returns handled.  `cd` demands exactly one argument, then attempts `chdir`
(modelled by `chdirOk`), reporting the error on failure.  `path` replaces
the registry wholesale with its arguments.  Any other first token is not a
builtin. -/
def handle_builtin (chdirOk : List Char → Bool) (gpath : List (List Char)) :
    List (List Char) → BuiltinOut
  | [] => .notBuiltin
  | a0 :: rest =>
    if a0 = exitName then
      match rest with
      | [] => .terminate 0 []
      | _ :: _ => .handled gpath [.errMsg]
    else if a0 = cdName then
      match rest with
      | [d] => if chdirOk d then .handled gpath [.chdirEff d] else .handled gpath [.errMsg]
      | _ => .handled gpath [.errMsg]
    else if a0 = pathName then
      .handled rest []
    else .notBuiltin

/-! ## External runner (wish.c:230-320) -/

/-- The trace of a successful `fork`: the parent's `spawned` record followed
by the child-side `open` request when a redirect target is present
(wish.c:285-305).  `argv` is passed to `execv` verbatim (wish.c:308). -/
def spawnEffs (prog : List Char) (argv : List (List Char)) (redir : Option (List Char)) :
    List Eff :=
  match redir with
  | none => [.spawned prog argv none]
  | some p => [.spawned prog argv (some p), .openReq p redirOpenFlags redirOpenMode]

/-- `run_external` (wish.c:230-320): empty argv is an error; an argv[0]
containing `/` is used verbatim after an `access(argv[0], X_OK)` check and
the registry is never consulted; otherwise an empty registry or a failed
`resolve_exec` is an error with no process created.  On success the child
is forked (fork assumed to succeed) and the returned flag is the positive
pid handed back to the caller. -/
def run_external (fs : List Char → Bool) (gpath : List (List Char))
    (argv : List (List Char)) (redir : Option (List Char)) : List Eff × Bool :=
  match argv with
  | [] => ([.errMsg], false)
  | a0 :: rest =>
    if a0.contains '/' then
      if fs a0 then (spawnEffs a0 (a0 :: rest) redir, true)
      else ([.errMsg], false)
    else
      if gpath = [] then ([.errMsg], false)
      else
        match resolve_exec fs gpath a0 with
        | none => ([.errMsg], false)
        | some prog => (spawnEffs prog (a0 :: rest) redir, true)

/-! ## Line orchestrator (wish.c:324-510) -/

/-- OS capabilities seen by the interpreter: `fsExec p` models
`access(p, X_OK) == 0`, `chdirOk d` models `chdir(d) == 0`. -/
structure Cfg where
  fsExec : List Char → Bool
  chdirOk : List Char → Bool

/-- Capacity of the fixed pending-pid array `pid_t kids[256]` (wish.c:389). -/
def KIDS_CAP : Nat := 256

/-- State of the main loop while processing one line: the path registry,
the accumulated effect trace, the number of successful spawns so far on
this line, the recorded pending handles `kids` (spawn indices, recorded
only while fewer than `KIDS_CAP` are stored, wish.c:486-489), and the exit
status once the `exit` builtin has run. -/
structure LoopSt where
  gpath : List (List Char)
  effs : List Eff
  spawnedCnt : Nat
  kids : List Nat
  terminated : Option Nat
deriving DecidableEq

/-- Dispatch of one segment (body of the loop wish.c:392-493).  A parse
error was already reported inside `parse_cmd_with_redir`; an empty argv is
skipped silently; a builtin executes in-process with the redirect target
ignored (wish.c:410-415); otherwise `run_external` runs and a successful
spawn's handle is recorded only while the `kids` array has room.  After
`exit` has terminated the process no further segment runs. -/
def processSegment (cfg : Cfg) (st : LoopSt) (seg : List Char) : LoopSt :=
  if st.terminated.isSome then st
  else
    match parse_cmd_with_redir seg with
    | .perr => { st with effs := st.effs ++ [.errMsg] }
    | .pempty => st
    | .pok argv redir =>
      match handle_builtin cfg.chdirOk st.gpath argv with
      | .handled g' es => { st with gpath := g', effs := st.effs ++ es }
      | .terminate s es => { st with effs := st.effs ++ es, terminated := some s }
      | .notBuiltin =>
        match run_external cfg.fsExec st.gpath argv redir with
        | (es, true) =>
          { st with
            effs := st.effs ++ es,
            spawnedCnt := st.spawnedCnt + 1,
            kids :=
              if st.kids.length < KIDS_CAP then st.kids ++ [st.spawnedCnt] else st.kids }
        | (es, false) => { st with effs := st.effs ++ es }

/-- Left fold of `processSegment` over the segments of one line
(wish.c:392-493). -/
def processSegments (cfg : Cfg) (st : LoopSt) (segs : List (List Char)) : LoopSt :=
  segs.foldl (processSegment cfg) st

/-- Trailing newline / carriage-return stripping (wish.c:374). -/
def stripCRLF (l : List Char) : List Char :=
  dropTrailing (fun c => c == '\n' || c == '\r') l

/-- The initial loop state for one line, given the current path registry. -/
def initSt (gpath : List (List Char)) : LoopSt :=
  { gpath := gpath, effs := [], spawnedCnt := 0, kids := [], terminated := none }

/-- Processing of one raw input line (wish.c:370-503): strip trailing
newlines, split on `&`, dispatch every segment, after which the wait loop
(wish.c:496-500) waits exactly on the recorded `kids` handles — retrying
`EINTR` — before the next `getline`. -/
def processLine (cfg : Cfg) (gpath : List (List Char)) (raw : List Char) : LoopSt :=
  processSegments cfg (initSt gpath) (split_tokens (stripCRLF raw) ['&'])

/-! ## Concrete instances used by witnesses and counterexamples -/

/-- A filesystem where exactly the path `/x` is executable. -/
def fsX : List Char → Bool := fun p => p == ['/', 'x']

/-- A configuration over `fsX` where every `chdir` fails. -/
def cfgX : Cfg := ⟨fsX, fun _ => false⟩

/-- A raw input line consisting of 257 `&`-separated copies of `/x`. -/
def line257 : List Char := List.intercalate ['&'] (List.replicate 257 ['/', 'x'])

/-! ## Tokenizer lemmas -/

/-- The head surviving `dropTrailing` is the head of the input. -/
theorem dropTrailing_head? (p : Char → Bool) (l : List Char) (c : Char)
    (h : (dropTrailing p l).head? = some c) : l.head? = some c := by
  cases l with
  | nil => simp [dropTrailing] at h
  | cons a rest =>
    simp only [dropTrailing] at h
    cases hr : dropTrailing p rest with
    | nil =>
      rw [hr] at h
      by_cases hp : p a
      · rw [if_pos hp] at h
        simp at h
      · rw [if_neg hp] at h
        simp at h
        simp [h]
    | cons r rs =>
      rw [hr] at h
      simp at h
      simp [h]

/-- The last character surviving `dropTrailing p` does not satisfy `p`. -/
theorem dropTrailing_getLast? (p : Char → Bool) (l : List Char) (c : Char)
    (h : (dropTrailing p l).getLast? = some c) : p c = false := by
  induction l with
  | nil => simp [dropTrailing] at h
  | cons a rest ih =>
    simp only [dropTrailing] at h
    cases hr : dropTrailing p rest with
    | nil =>
      rw [hr] at h
      by_cases hp : p a
      · rw [if_pos hp] at h
        simp at h
      · rw [if_neg hp] at h
        simp at h
        subst h
        simpa using hp
    | cons r rs =>
      rw [hr] at h
      rw [List.getLast?_cons_cons] at h
      exact ih (by rw [hr]; exact h)

/-- The head of a trimmed token is not space or tab. -/
theorem trimWS_head (l : List Char) (c : Char) (h : (trimWS l).head? = some c) :
    isWS c = false := by
  have h2 := dropTrailing_head? isWS (l.dropWhile isWS) c h
  have h3 := List.head?_dropWhile_not isWS l
  rw [h2] at h3
  simpa using h3

/-- The last character of a trimmed token is not space or tab. -/
theorem trimWS_getLast (l : List Char) (c : Char) (h : (trimWS l).getLast? = some c) :
    isWS c = false :=
  dropTrailing_getLast? isWS _ c h

/-- Every token of `split_tokens` is a non-empty trim of some raw piece. -/
theorem mem_split_tokens (s delims : List Char) (t : List Char)
    (h : t ∈ split_tokens s delims) : t ≠ [] ∧ ∃ piece, t = trimWS piece := by
  unfold split_tokens at h
  generalize splitRaw delims s = L at h
  induction L with
  | nil => simp at h
  | cons p ps ih =>
    simp only [List.foldr] at h
    by_cases hp : p = []
    · rw [if_pos hp] at h
      exact ih h
    · rw [if_neg hp] at h
      by_cases ht : trimWS p = []
      · rw [if_pos ht] at h
        exact ih h
      · rw [if_neg ht] at h
        rcases List.mem_cons.mp h with h1 | h1
        · exact ⟨h1 ▸ ht, p, h1⟩
        · exact ih h1

/-- C8: for every input string and delimiter set, the tokenizer returns an
ordered sequence containing no empty token and no token with a leading or
trailing space or tab character. -/
theorem claim_C8 (s delims : List Char) (t : List Char)
    (h : t ∈ split_tokens s delims) :
    t ≠ [] ∧ (∀ c, t.head? = some c → isWS c = false) ∧
      (∀ c, t.getLast? = some c → isWS c = false) := by
  obtain ⟨hne, piece, hpc⟩ := mem_split_tokens s delims t h
  subst hpc
  exact ⟨hne, fun c hc => trimWS_head piece c hc, fun c hc => trimWS_getLast piece c hc⟩

/-- Witness for C8 at the concrete input `" ab\tcd "` split on space/tab. -/
theorem claim_C8_witness :
    (['a', 'b'] ∈ split_tokens (" ab\tcd ".toList) wsDelims) ∧
      (['a', 'b'] ≠ [] ∧ (∀ c, (['a', 'b'] : List Char).head? = some c → isWS c = false) ∧
        (∀ c, (['a', 'b'] : List Char).getLast? = some c → isWS c = false)) :=
  ⟨by decide, claim_C8 (" ab\tcd ".toList) wsDelims ['a', 'b'] (by decide)⟩

/-! ## Resolver and external-runner lemmas -/

/-- `resolve_exec` is exactly the first match over the candidates
`dir ++ "/" ++ cmd` built from the registry in order. -/
theorem resolve_exec_eq_find? (fs : List Char → Bool) (g : List (List Char))
    (cmd : List Char) :
    resolve_exec fs g cmd = (g.map (fun d => d ++ '/' :: cmd)).find? fs := by
  induction g with
  | nil => rfl
  | cons d rest ih =>
    simp only [resolve_exec, List.map, List.find?_cons]
    cases hfs : fs (d ++ '/' :: cmd) with
    | true => simp
    | false => simpa using ih

/-- C4: resolution iterates the Path Registry in order, building
`directory + '/' + name` for each entry, and returns the first candidate
executable by the current user (first match wins, so earlier directories
shadow later ones); it returns none when the registry is empty or no
candidate is executable; and dispatching an external segment leaves the
registry unchanged (resolution is a pure read). -/
theorem claim_C4 (fs : List Char → Bool) (g : List (List Char)) (cmd : List Char) :
    resolve_exec fs g cmd = (g.map (fun d => d ++ '/' :: cmd)).find? fs
    ∧ (g = [] → resolve_exec fs g cmd = none)
    ∧ ((∀ d ∈ g, fs (d ++ '/' :: cmd) = false) → resolve_exec fs g cmd = none)
    ∧ (∀ cfg st seg argv redir, st.terminated = none →
        parse_cmd_with_redir seg = .pok argv redir →
        handle_builtin cfg.chdirOk st.gpath argv = .notBuiltin →
        (processSegment cfg st seg).gpath = st.gpath) := by
  refine ⟨resolve_exec_eq_find? fs g cmd, ?_, ?_, ?_⟩
  · rintro rfl
    rfl
  · intro hall
    rw [resolve_exec_eq_find? fs g cmd]
    rw [List.find?_eq_none]
    intro x hx
    rcases List.mem_map.mp hx with ⟨d, hd, rfl⟩
    simp [hall d hd]
  · intro cfg st seg argv redir ht hp hb
    unfold processSegment
    simp only [ht, Option.isSome_none, Bool.false_eq_true, if_false, hp, hb]
    rcases hre : run_external cfg.fsExec st.gpath argv redir with ⟨es, b⟩
    cases b <;> simp

/-- Witness for C4: with only `/x` executable, `ls` does not resolve in the
registry `["/b"]`. -/
theorem claim_C4_witness :
    resolve_exec fsX [['/', 'b']] ['l', 's'] = none :=
  (claim_C4 fsX [['/', 'b']] ['l', 's']).2.2.1 (by decide)

/-- C3: an argv[0] containing `/` is used verbatim with no registry search
(the result does not depend on the registry), failing the direct
executability check reports an error and creates no process; an argv[0]
without `/` is resolved only through `resolve_exec`, whose failure likewise
reports an error with no process created, and whose result is the program
the child executes. -/
theorem claim_C3 (fs : List Char → Bool) (g g' : List (List Char))
    (a0 : List Char) (rest : List (List Char)) (redir : Option (List Char)) :
    (a0.contains '/' = true →
      run_external fs g (a0 :: rest) redir = run_external fs g' (a0 :: rest) redir
      ∧ (fs a0 = false → run_external fs g (a0 :: rest) redir = ([.errMsg], false))
      ∧ (fs a0 = true →
          run_external fs g (a0 :: rest) redir = (spawnEffs a0 (a0 :: rest) redir, true)))
    ∧ (a0.contains '/' = false →
      (resolve_exec fs g a0 = none →
        run_external fs g (a0 :: rest) redir = ([.errMsg], false))
      ∧ (∀ p, resolve_exec fs g a0 = some p →
          run_external fs g (a0 :: rest) redir = (spawnEffs p (a0 :: rest) redir, true))) := by
  constructor
  · intro hsl
    refine ⟨?_, ?_, ?_⟩
    · simp only [run_external, hsl, eq_self_iff_true, if_true]
    · intro hfs
      simp only [run_external, hsl, hfs, eq_self_iff_true, if_true]
      simp
    · intro hfs
      simp only [run_external, hsl, hfs, eq_self_iff_true, if_true]
  · intro hns
    constructor
    · intro hres
      simp only [run_external, hns, hres, Bool.false_eq_true, if_false]
      by_cases hg : g = []
      · rw [if_pos hg]
      · rw [if_neg hg]
    · intro p hres
      have hg : g ≠ [] := by
        intro hgE
        rw [hgE] at hres
        simp [resolve_exec] at hres
      simp only [run_external, hns, hres, Bool.false_eq_true, if_false]
      rw [if_neg hg]

/-- Witness for C3: `/x` is executed verbatim in an empty registry. -/
theorem claim_C3_witness :
    run_external fsX [] [['/', 'x']] none = (spawnEffs ['/', 'x'] [['/', 'x']] none, true) :=
  (((claim_C3 fsX [] [['a']] ['/', 'x'] [] none).1 (by decide)).2.2) (by decide)

/-- C5: the `path` builtin replaces the registry wholesale with exactly its
arguments in order (zero arguments empty it); with an empty registry every
bare-name external command reports an error and spawns no process; a later
`path` with a directory containing the executable makes resolution succeed
again. -/
theorem claim_C5 (chdirOk fs : List Char → Bool) (g : List (List Char))
    (args : List (List Char)) :
    handle_builtin chdirOk g (pathName :: args) = .handled args []
    ∧ (∀ (a0 : List Char) rest redir, a0.contains '/' = false →
        run_external fs [] (a0 :: rest) redir = ([.errMsg], false))
    ∧ (∀ (d a0 : List Char) rest redir, a0.contains '/' = false →
        fs (d ++ '/' :: a0) = true →
        run_external fs [d] (a0 :: rest) redir =
          (spawnEffs (d ++ '/' :: a0) (a0 :: rest) redir, true)) := by
  refine ⟨rfl, ?_, ?_⟩
  · intro a0 rest redir hns
    simp only [run_external, hns, Bool.false_eq_true, if_false]
    simp
  · intro d a0 rest redir hns hfs
    have hres : resolve_exec fs [d] a0 = some (d ++ '/' :: a0) := by
      simp [resolve_exec, hfs]
    simp only [run_external, hns, Bool.false_eq_true, if_false, hres]
    simp

/-- Witness for C5: after `path` with zero arguments, the bare name `ls`
reports an error and spawns nothing; with the directory left empty-string
in the registry, `/x` being executable makes the bare name `x` resolvable
again. -/
theorem claim_C5_witness :
    handle_builtin cfgX.chdirOk [['/', 'b']] [pathName] = .handled [] []
    ∧ run_external fsX [] [['l', 's']] none = ([Eff.errMsg], false)
    ∧ run_external fsX [[]] [['x']] none = (spawnEffs ['/', 'x'] [['x']] none, true) :=
  ⟨(claim_C5 cfgX.chdirOk fsX [['/', 'b']] []).1,
   (claim_C5 cfgX.chdirOk fsX [['/', 'b']] []).2.1 ['l', 's'] [] none (by decide),
   (claim_C5 cfgX.chdirOk fsX [['/', 'b']] []).2.2 [] ['x'] [] none (by decide) (by decide)⟩

/-- C9: `exit` with zero extra arguments terminates the interpreter with
status 0; `exit` with any extra argument reports the error, does not
terminate, and the interpreter keeps processing: the line loop outcome is
not terminated and only the fixed error message was emitted. -/
theorem claim_C9 (cfg : Cfg) (g : List (List Char)) (x : List Char)
    (rest : List (List Char)) :
    handle_builtin cfg.chdirOk g [exitName] = .terminate 0 []
    ∧ handle_builtin cfg.chdirOk g (exitName :: x :: rest) = .handled g [.errMsg]
    ∧ (processLine cfg g ("exit".toList)).terminated = some 0
    ∧ (processLine cfg g ("exit stuff".toList)).terminated = none
    ∧ (processLine cfg g ("exit stuff".toList)).effs = [.errMsg] :=
  ⟨rfl, rfl, rfl, rfl, rfl⟩

/-! ## Orchestrator lemmas for parse errors and builtins -/

/-- A segment whose parse fails adds only the error message to the trace:
no spawn, no registry change, no termination. -/
theorem processSegment_perr (cfg : Cfg) (st : LoopSt) (seg : List Char)
    (ht : st.terminated = none) (hp : parse_cmd_with_redir seg = .perr) :
    processSegment cfg st seg = { st with effs := st.effs ++ [.errMsg] } := by
  unfold processSegment
  simp only [ht, Option.isSome_none, Bool.false_eq_true, if_false, hp]

/-- C6: a segment containing two or more `>` characters is a parse error:
the error is reported, the segment spawns nothing and changes nothing else,
and line processing continues with the next segment. -/
theorem claim_C6 (seg : List Char) (cfg : Cfg) (st : LoopSt)
    (hgt : 2 ≤ seg.countP (fun c => c == '>')) (ht : st.terminated = none) :
    parse_cmd_with_redir seg = .perr
    ∧ processSegment cfg st seg = { st with effs := st.effs ++ [.errMsg] }
    ∧ ∀ rest, processSegments cfg st (seg :: rest) =
        processSegments cfg { st with effs := st.effs ++ [.errMsg] } rest := by
  have hp : parse_cmd_with_redir seg = .perr := by
    unfold parse_cmd_with_redir
    have h1 : 1 < seg.countP (fun c => c == '>') := hgt
    simp [h1]
  refine ⟨hp, processSegment_perr cfg st seg ht hp, ?_⟩
  intro rest
  show processSegments cfg (processSegment cfg st seg) rest = _
  rw [processSegment_perr cfg st seg ht hp]

/-- Witness for C6 at the concrete segment `"a > b > c"`. -/
theorem claim_C6_witness :
    parse_cmd_with_redir ("a > b > c".toList) = ParseOut.perr
    ∧ processSegment cfgX (initSt []) ("a > b > c".toList) =
        { initSt [] with effs := (initSt []).effs ++ [Eff.errMsg] } :=
  ⟨(claim_C6 ("a > b > c".toList) cfgX (initSt []) (by decide) rfl).1,
   (claim_C6 ("a > b > c".toList) cfgX (initSt []) (by decide) rfl).2.1⟩

/-- C7: with exactly one `>`, the text after it must tokenize on whitespace
to exactly one token, which becomes the redirect target; zero or several
tokens after `>` is a reported parse error, and an erroring segment is
skipped having added only the error message (nothing spawned). -/
theorem claim_C7 (seg : List Char) (hgt : seg.countP (fun c => c == '>') = 1) :
    (split_tokens (afterGT seg) wsDelims = [] → parse_cmd_with_redir seg = .perr)
    ∧ (∀ t u us, split_tokens (afterGT seg) wsDelims = t :: u :: us →
        parse_cmd_with_redir seg = .perr)
    ∧ (∀ t, split_tokens (afterGT seg) wsDelims = [t] →
        parse_cmd_with_redir seg =
          match split_tokens (beforeGT seg) wsDelims with
          | [] => ParseOut.pempty
          | a :: as => ParseOut.pok (a :: as) (some t))
    ∧ (∀ cfg st, st.terminated = none → parse_cmd_with_redir seg = .perr →
        processSegment cfg st seg = { st with effs := st.effs ++ [.errMsg] }) := by
  have hn1 : ¬(1 < seg.countP (fun c => c == '>')) := by omega
  refine ⟨?_, ?_, ?_, fun cfg st ht hp => processSegment_perr cfg st seg ht hp⟩
  · intro h0
    unfold parse_cmd_with_redir
    simp only [hgt, hn1, if_false, if_pos rfl]
    rw [show (seg.dropWhile (fun c => c != '>')).tail = afterGT seg from rfl, h0]
    rfl
  · intro t u us h2
    unfold parse_cmd_with_redir
    simp only [hgt, hn1, if_false, if_pos rfl]
    rw [show (seg.dropWhile (fun c => c != '>')).tail = afterGT seg from rfl, h2]
    rfl
  · intro t h1
    unfold parse_cmd_with_redir
    simp only [hgt, hn1, if_false, if_pos rfl]
    rw [show (seg.dropWhile (fun c => c != '>')).tail = afterGT seg from rfl, h1]
    rfl

/-- Witness for C7 at the concrete segment `"ls > a b"` (two tokens after
the `>`). -/
theorem claim_C7_witness :
    parse_cmd_with_redir ("ls > a b".toList) = ParseOut.perr :=
  (claim_C7 ("ls > a b".toList) (by decide)).2.1 ['a'] ['b'] [] (by decide)

/-- Any builtin dispatch result carries a trace with no spawn and no
file-open request. -/
theorem handle_builtin_safe (cok : List Char → Bool) (g : List (List Char))
    (b : List Char) (rest : List (List Char))
    (hbn : b = exitName ∨ b = cdName ∨ b = pathName) :
    (∃ g' es, handle_builtin cok g (b :: rest) = .handled g' es ∧ effsSafe es)
    ∨ (∃ s es, handle_builtin cok g (b :: rest) = .terminate s es ∧ effsSafe es) := by
  rcases hbn with rfl | rfl | rfl
  · cases rest with
    | nil => exact Or.inr ⟨0, [], rfl, by simp [effsSafe]⟩
    | cons y ys => exact Or.inl ⟨g, [.errMsg], rfl, by simp [effsSafe]⟩
  · cases rest with
    | nil => exact Or.inl ⟨g, [.errMsg], rfl, by simp [effsSafe]⟩
    | cons d ds =>
      cases ds with
      | nil =>
        cases hcd : cok d with
        | true =>
          refine Or.inl ⟨g, [.chdirEff d], ?_, by simp [effsSafe]⟩
          simp [handle_builtin, hcd]
          decide
        | false =>
          refine Or.inl ⟨g, [.errMsg], ?_, by simp [effsSafe]⟩
          simp [handle_builtin, hcd]
      | cons e es => exact Or.inl ⟨g, [.errMsg], rfl, by simp [effsSafe]⟩
  · exact Or.inl ⟨rest, [], rfl, by simp [effsSafe]⟩

/-- C10: when the first token of a segment is a builtin name, a parsed
redirect target is silently ignored: dispatch is identical to the same
segment without the redirect, and the builtin adds no spawn and no
file-open request to the trace (the target file is never created or
truncated and no error is reported for the redirect). -/
theorem claim_C10 (cfg : Cfg) (st : LoopSt) (seg seg' : List Char)
    (argv : List (List Char)) (r r' : Option (List Char)) (b : List Char)
    (ht : st.terminated = none)
    (hp : parse_cmd_with_redir seg = .pok argv r)
    (hp' : parse_cmd_with_redir seg' = .pok argv r')
    (hb : argv.head? = some b)
    (hbn : b = exitName ∨ b = cdName ∨ b = pathName) :
    processSegment cfg st seg = processSegment cfg st seg'
    ∧ ∃ es, (processSegment cfg st seg).effs = st.effs ++ es ∧ effsSafe es := by
  obtain ⟨b0, brest, rfl⟩ : ∃ b0 brest, argv = b0 :: brest := by
    cases argv with
    | nil => simp at hb
    | cons x xs => exact ⟨x, xs, rfl⟩
  simp only [List.head?_cons, Option.some.injEq] at hb
  subst hb
  rcases handle_builtin_safe cfg.chdirOk st.gpath b0 brest hbn with
    ⟨g', es, hbe, hsafe⟩ | ⟨s, es, hbe, hsafe⟩
  · constructor
    · unfold processSegment
      simp only [ht, Option.isSome_none, Bool.false_eq_true, if_false, hp, hp', hbe]
    · refine ⟨es, ?_, hsafe⟩
      unfold processSegment
      simp only [ht, Option.isSome_none, Bool.false_eq_true, if_false, hp, hbe]
  · constructor
    · unfold processSegment
      simp only [ht, Option.isSome_none, Bool.false_eq_true, if_false, hp, hp', hbe]
    · refine ⟨es, ?_, hsafe⟩
      unfold processSegment
      simp only [ht, Option.isSome_none, Bool.false_eq_true, if_false, hp, hbe]

/-- Witness for C10: `path /q > f` dispatches exactly like `path /q`, with
no file opened and nothing spawned. -/
theorem claim_C10_witness :
    processSegment cfgX (initSt [['/', 'b']]) ("path /q > f".toList) =
      processSegment cfgX (initSt [['/', 'b']]) ("path /q".toList)
    ∧ ∃ es, (processSegment cfgX (initSt [['/', 'b']]) ("path /q > f".toList)).effs =
        (initSt [['/', 'b']]).effs ++ es ∧ effsSafe es :=
  claim_C10 cfgX (initSt [['/', 'b']]) ("path /q > f".toList) ("path /q".toList)
    [pathName, ['/', 'q']] (some ['f']) none pathName rfl (by decide) (by decide)
    (by decide) (Or.inr (Or.inr rfl))

/-- C2 counterexample: the mode passed to `open` is the literal `0666`
(wish.c:289), not the owner-rw / group-other-read mode `0644` the claim
asserts; the group permission digit is 6 (read/write), not 4 (read-only). -/
theorem claim_C2_counterexample :
    redirOpenMode = 0o666 ∧ redirOpenMode ≠ specClaimedRedirMode
      ∧ redirOpenMode / 8 % 8 = 6 ∧ specClaimedRedirMode / 8 % 8 = 4 := by
  decide

/-- C2 amended: every successful spawn with a redirect target opens that
target with `O_CREAT|O_WRONLY|O_TRUNC` and mode `0666` (read/write for
owner, group and other, subject to the process umask): a missing file is
created and a pre-existing file is truncated (`O_TRUNC` set), not appended
to (`O_APPEND` clear). -/
theorem claim_C2_amended (fs : List Char → Bool) (g : List (List Char))
    (argv : List (List Char)) (p : List Char) (es : List Eff)
    (h : run_external fs g argv (some p) = (es, true)) :
    Eff.openReq p redirOpenFlags redirOpenMode ∈ es
    ∧ redirOpenFlags &&& O_TRUNC = O_TRUNC
    ∧ redirOpenFlags &&& O_APPEND = 0
    ∧ redirOpenFlags &&& O_CREAT = O_CREAT
    ∧ redirOpenMode = 0o666 := by
  refine ⟨?_, by decide, by decide, by decide, by decide⟩
  cases argv with
  | nil => simp [run_external] at h
  | cons a0 rest =>
    simp only [run_external] at h
    cases hsl : a0.contains '/' with
    | true =>
      rw [hsl] at h
      cases hfs : fs a0 with
      | true =>
        rw [hfs] at h
        simp at h
        rw [← h]
        simp [spawnEffs]
      | false =>
        rw [hfs] at h
        simp at h
    | false =>
      rw [hsl] at h
      simp only [Bool.false_eq_true, if_false] at h
      by_cases hg : g = []
      · rw [if_pos hg] at h
        simp at h
      · rw [if_neg hg] at h
        cases hres : resolve_exec fs g a0 with
        | none =>
          rw [hres] at h
          simp at h
        | some prog =>
          rw [hres] at h
          simp at h
          rw [← h]
          simp [spawnEffs]

/-- Witness for C2 (amended) at the concrete spawn of `/x` with redirect
target `f`. -/
theorem claim_C2_witness :
    Eff.openReq ['f'] redirOpenFlags redirOpenMode ∈
        [Eff.spawned ['/', 'x'] [['/', 'x']] (some ['f']),
         Eff.openReq ['f'] redirOpenFlags redirOpenMode]
    ∧ redirOpenFlags &&& O_TRUNC = O_TRUNC
    ∧ redirOpenFlags &&& O_APPEND = 0
    ∧ redirOpenFlags &&& O_CREAT = O_CREAT
    ∧ redirOpenMode = 0o666 :=
  claim_C2_amended fsX [] [['/', 'x']] ['f']
    [Eff.spawned ['/', 'x'] [['/', 'x']] (some ['f']),
     Eff.openReq ['f'] redirOpenFlags redirOpenMode] (by decide)

/-! ## Fan-in wait: the recorded-handles invariant -/

/-- Dispatching one segment keeps the recorded handles equal to the first
`KIDS_CAP` spawn indices of the line. -/
theorem processSegment_kids_inv (cfg : Cfg) (st : LoopSt) (seg : List Char)
    (h : st.kids = (List.range st.spawnedCnt).take KIDS_CAP) :
    (processSegment cfg st seg).kids =
      (List.range (processSegment cfg st seg).spawnedCnt).take KIDS_CAP := by
  unfold processSegment
  split
  · exact h
  · split
    · exact h
    · exact h
    · split
      · exact h
      · exact h
      · split
        · show (if st.kids.length < KIDS_CAP then st.kids ++ [st.spawnedCnt] else st.kids) =
            (List.range (st.spawnedCnt + 1)).take KIDS_CAP
          have hlen : st.kids.length = min KIDS_CAP st.spawnedCnt := by
            rw [h, List.length_take, List.length_range]
          by_cases hlt : st.kids.length < KIDS_CAP
          · have hn : st.spawnedCnt < KIDS_CAP := by
              rw [hlen] at hlt
              omega
            rw [if_pos hlt, h,
              List.take_of_length_le (by rw [List.length_range]; omega),
              ← List.range_succ,
              List.take_of_length_le (by rw [List.length_range]; omega)]
          · have hn : KIDS_CAP ≤ st.spawnedCnt := by
              rw [hlen] at hlt
              omega
            rw [if_neg hlt, h, List.take_range, List.take_range]
            congr 1
            omega
        · exact h

/-- The invariant of `processSegment_kids_inv` holds across a whole line. -/
theorem processSegments_kids_inv (cfg : Cfg) (segs : List (List Char)) (st : LoopSt)
    (h : st.kids = (List.range st.spawnedCnt).take KIDS_CAP) :
    (processSegments cfg st segs).kids =
      (List.range (processSegments cfg st segs).spawnedCnt).take KIDS_CAP := by
  induction segs generalizing st with
  | nil => exact h
  | cons sg rest ih => exact ih _ (processSegment_kids_inv cfg st sg h)

/-- C1 amended: provided at most `KIDS_CAP` (= 256) processes were spawned
for the line, every spawned handle — in spawn order — is recorded in the
pending collection that the fan-in wait loop drains before the next line is
read; beyond the 256th successful spawn of a single line the handle is
dropped (wish.c:486-489) and never waited on. -/
theorem claim_C1_amended (cfg : Cfg) (g : List (List Char)) (raw : List Char)
    (h : (processLine cfg g raw).spawnedCnt ≤ KIDS_CAP) :
    (processLine cfg g raw).kids = List.range (processLine cfg g raw).spawnedCnt := by
  have hinv := processSegments_kids_inv cfg (split_tokens (stripCRLF raw) ['&'])
    (initSt g) (by simp [initSt])
  exact hinv.trans (List.take_of_length_le (by rw [List.length_range]; exact h))

/-- Witness for C1 (amended): the two-spawn line `/x&/x` records both
handles. -/
theorem claim_C1_witness :
    (processLine cfgX [] ("/x&/x".toList)).kids =
      List.range (processLine cfgX [] ("/x&/x".toList)).spawnedCnt :=
  claim_C1_amended cfgX [] ("/x&/x".toList) (by decide)

set_option maxRecDepth 4000 in
/-- C1 counterexample: a line of 257 `&`-separated copies of the executable
path `/x` spawns 257 processes but records (and therefore waits on) only
256 handles — the 257th spawned process is skipped in the fan-in wait. -/
theorem claim_C1_counterexample :
    (processLine cfgX [] line257).spawnedCnt = 257
      ∧ (processLine cfgX [] line257).kids.length = 256 := by
  decide

end Wish
